import Mathlib

/-
  Verification development for the wsb-analyst repository.

  Shallow embedding notes:
  - JavaScript numbers are modelled by exact rationals (ℚ); NaN and
    floating-point rounding are outside the model.  All numeric constants
    appearing in the source (0.35, 0.01, ...) are exactly representable
    as decimal rationals, and every concrete example discussed below gives
    the same result under IEEE doubles and under exact rational arithmetic.
  - Nullable JS fields (a field that may be null/undefined) are modelled
    as Option values.
  - JS truthiness on numbers: null, undefined and 0 are falsy.  The
    helpers truthyD / numTruthy encode this for Option ℚ, strTruthy for
    Option String (the empty string is falsy).
  - Math.round x is floor (x + 1/2); Number.prototype.toFixed is modelled
    by jsToFixed (sign extracted first, then the scaled value is rounded
    to the nearest integer, ties toward the larger integer), following the
    ECMAScript specification of both operations.
-/

namespace WsbAnalyst

/-- JS Math.round: round half toward positive infinity. -/
def jsRound (x : ℚ) : ℤ := ⌊x + 1/2⌋

/-- Render a natural number with d forced decimal digits (helper for jsToFixed). -/
def jsToFixedDigits (d : ℕ) (m : ℕ) : String :=
  let s := Nat.toDigits 10 m
  if d = 0 then s.asString
  else
    let s := if s.length ≤ d then List.replicate (d + 1 - s.length) '0' ++ s else s
    (s.take (s.length - d)).asString ++ "." ++ (s.drop (s.length - d)).asString

/-- JS Number.prototype.toFixed d, on exact rationals: the sign is extracted
first, then the absolute value is scaled by 10 ^ d and rounded to the nearest
integer (ties pick the larger integer), then rendered with d decimals. -/
def jsToFixed (d : ℕ) (x : ℚ) : String :=
  if x < 0 then "-" ++ jsToFixedDigits d (⌊(-x) * (10 : ℚ) ^ d + 1/2⌋).toNat
  else jsToFixedDigits d (⌊x * (10 : ℚ) ^ d + 1/2⌋).toNat

/-- JS `x || dflt` for a nullable number x: dflt when x is null, absent, or 0. -/
def truthyD (x : Option ℚ) (dflt : ℚ) : ℚ :=
  match x with
  | none => dflt
  | some v => if v = 0 then dflt else v

/-- JS truthiness of a nullable number: false for null, absent, and 0. -/
def numTruthy (x : Option ℚ) : Bool :=
  match x with
  | none => false
  | some v => v != 0

/-- JS truthiness of a nullable string: false for null, absent, and the empty string. -/
def strTruthy (x : Option String) : Bool :=
  match x with
  | none => false
  | some s => s != ""

/-- JS `s || fallback` on strings: fallback exactly when s is empty. -/
def jsOr (s fallback : String) : String := if s = "" then fallback else s

/-- Fundamental metric bundle (fields read by runAnalysis in src/src/App.jsx). -/
structure Fundamental where
  score : Option ℚ := none
  trailing_pe : Option ℚ := none
  revenue_growth_yoy : Option ℚ := none
  dcf_upside_pct : Option ℚ := none
  debt_to_equity : Option ℚ := none
  deriving DecidableEq, Repr

/-- Technical metric bundle (fields read by runAnalysis in src/src/App.jsx). -/
structure Technical where
  score : Option ℚ := none
  trend_signal : Option String := none
  deriving DecidableEq, Repr

/-- Risk metric bundle (fields read by runAnalysis in src/src/App.jsx). -/
structure Risk where
  score : Option ℚ := none
  sharpe_ratio : Option ℚ := none
  volatility_annual : Option ℚ := none
  max_drawdown : Option ℚ := none
  deriving DecidableEq, Repr

/-- Per-ticker stock detail as returned by fetchStockDetail; each bundle may be
absent (the source then substitutes an empty object via `detail.fundamental || {}`).
The info and price_history pass-through fields are not read by the synthesis
logic and are omitted. -/
structure StockDetail where
  fundamental : Option Fundamental := none
  technical : Option Technical := none
  risk : Option Risk := none
  deriving DecidableEq, Repr

/-- Recommendation record built per ticker by runAnalysis (src/src/App.jsx,
lines 89 to 103).  The raw pass-through fields (fundamental, technical, risk,
info, price_history) are omitted: they are copies of the input, not synthesized
data. -/
structure Recommendation where
  ticker : String
  signal : String
  score : ℤ
  investment_thesis : String
  bull_case : String
  bear_case : String
  risk_flags : List String
  wsb_mention_rank : ℕ
  deriving DecidableEq, Repr

/-- Composite score, src/src/App.jsx lines 45 to 50:
Math.round((f.score || 50) * 0.35 + (t.score || 50) * 0.25 + (r.score || 50) * 0.20 + 50 * 0.20). -/
def compositeOf (f : Fundamental) (t : Technical) (r : Risk) : ℤ :=
  jsRound (truthyD f.score 50 * (35/100) + truthyD t.score 50 * (25/100) +
           truthyD r.score 50 * (20/100) + 50 * (20/100))

/-- Signal classification, src/src/App.jsx lines 53 to 57 (the source initializes
the variable to hold and overwrites it through an if / else-if chain, which is
the same nested conditional). -/
def signalOf (composite : ℤ) : String :=
  if composite ≥ 75 then "strong_buy"
  else if composite ≥ 60 then "buy"
  else if composite ≤ 25 then "strong_sell"
  else if composite ≤ 40 then "sell"
  else "hold"

/-- Thesis clause list, src/src/App.jsx lines 60 to 67. -/
def thesisParts (f : Fundamental) (t : Technical) (r : Risk) : List String :=
  (match f.trailing_pe with
   | some pe => if pe ≠ 0 then ["P/E " ++ jsToFixed 1 pe] else []
   | none => []) ++
  (match f.revenue_growth_yoy with
   | some g =>
       ["revenue " ++ (if g > 0 then "growing" else "declining") ++ " " ++
        jsToFixed 1 (abs (g * 100)) ++ "% YoY"]
   | none => []) ++
  (match t.trend_signal with
   | some s => if s ≠ "" then [s ++ " trend"] else []
   | none => []) ++
  (match r.sharpe_ratio with
   | some sr => ["Sharpe " ++ jsToFixed 2 sr]
   | none => [])

/-- Thesis string, src/src/App.jsx lines 68 to 70. -/
def thesisOf (ticker : String) (f : Fundamental) (t : Technical) (r : Risk) : String :=
  if (thesisParts f t r).length > 0 then
    ticker ++ ": " ++ String.intercalate ", " (thesisParts f t r) ++ "."
  else ticker ++ ": Limited data available."

/-- Risk flag list, src/src/App.jsx lines 73 to 77. -/
def riskFlagsOf (f : Fundamental) (r : Risk) : List String :=
  (match f.trailing_pe with
   | some pe => if pe ≠ 0 ∧ pe > 50 then ["Extreme valuation"] else []
   | none => []) ++
  (match f.debt_to_equity with
   | some de => if de ≠ 0 ∧ de > 3 then ["Heavy debt"] else []
   | none => []) ++
  (match r.volatility_annual with
   | some va => if va ≠ 0 ∧ va > (5/10) then ["High volatility"] else []
   | none => []) ++
  (match r.max_drawdown with
   | some md => if md ≠ 0 ∧ md < -(3/10) then [jsToFixed 0 (md * 100) ++ "% max drawdown"] else []
   | none => [])

/-- Bull clause list, src/src/App.jsx lines 80 to 84. -/
def bullOf (f : Fundamental) (t : Technical) : List String :=
  (match f.dcf_upside_pct with
   | some up => if up ≠ 0 ∧ up > 0 then ["DCF suggests " ++ jsToFixed 0 (up * 100) ++ "% upside"] else []
   | none => []) ++
  (match f.revenue_growth_yoy with
   | some g => if g ≠ 0 ∧ g > (1/10) then ["Strong revenue growth"] else []
   | none => []) ++
  (if t.trend_signal = some "bullish" then ["Bullish technicals"] else [])

/-- Bear clause list, src/src/App.jsx lines 85 to 87. -/
def bearOf (f : Fundamental) (t : Technical) (r : Risk) : List String :=
  (match f.trailing_pe with
   | some pe => if pe ≠ 0 ∧ pe > 40 then ["Expensive (P/E " ++ jsToFixed 0 pe ++ ")"] else []
   | none => []) ++
  (if t.trend_signal = some "bearish" then ["Bearish technicals"] else []) ++
  (match r.volatility_annual with
   | some va => if va ≠ 0 ∧ va > (5/10) then ["Very volatile"] else []
   | none => [])

/-- Per-ticker recommendation synthesis: the body of the try block in
runAnalysis, src/src/App.jsx lines 40 to 103.  rank is the 1-based position
i + 1 in the trending list. -/
def synthesize (ticker : String) (detail : StockDetail) (rank : ℕ) : Recommendation :=
  let f := detail.fundamental.getD {}
  let t := detail.technical.getD {}
  let r := detail.risk.getD {}
  let composite := compositeOf f t r
  { ticker := ticker
    signal := signalOf composite
    score := composite
    investment_thesis := thesisOf ticker f t r
    bull_case := jsOr (String.intercalate ". " (bullOf f t)) "Limited bullish signals."
    bear_case := jsOr (String.intercalate ". " (bearOf f t r)) "Limited bearish signals."
    risk_flags := riskFlagsOf f r
    wsb_mention_rank := rank }

end WsbAnalyst

namespace WsbAnalyst

/-- Modelled from the words of claim C1: composite formula in which the default
50 is substituted exactly when the score field is null or absent (the ?? of the
claim), never when it is 0. -/
def compositeClaimed (fs ts rs : Option ℚ) : ℤ :=
  jsRound (fs.getD 50 * (35/100) + ts.getD 50 * (25/100) +
           rs.getD 50 * (20/100) + 50 * (20/100))

/-- Modelled from the amended claim: composite formula in which the default 50
is substituted when the score field is null, absent, or equal to 0. -/
def compositeAmended (fs ts rs : Option ℚ) : ℤ :=
  jsRound ((if fs = none ∨ fs = some 0 then 50 else fs.getD 50) * (35/100) +
           (if ts = none ∨ ts = some 0 then 50 else ts.getD 50) * (25/100) +
           (if rs = none ∨ rs = some 0 then 50 else rs.getD 50) * (20/100) +
           50 * (20/100))

lemma truthyD50_eq_amended (x : Option ℚ) :
    truthyD x 50 = (if x = none ∨ x = some 0 then 50 else x.getD 50) := by
  cases x with
  | none => simp [truthyD]
  | some v =>
      simp only [truthyD, Option.getD_some]
      by_cases h : v = 0 <;> simp [h]

end WsbAnalyst

namespace WsbAnalyst

/-- C1 counterexample: the claim says the default 50 is substituted exactly when
the score field is null or absent, so at f.score = 0 it predicts composite
round(0 * 0.35 + 50 * 0.25 + 50 * 0.20 + 10) = 33; the code uses JS truthiness
(f.score || 50) and yields 50 at that same input. -/
theorem composite_default_counterexample :
    compositeOf { score := some 0 } { score := some 50 } { score := some 50 } = 50 ∧
    compositeClaimed (some 0) (some 50) (some 50) = 33 ∧
    compositeOf { score := some 0 } { score := some 50 } { score := some 50 } ≠
      compositeClaimed (some 0) (some 50) (some 50) := by
  have h1 : compositeOf { score := some 0 } { score := some 50 } { score := some 50 } = 50 := by
    norm_num [compositeOf, truthyD, jsRound]
  have h2 : compositeClaimed (some 0) (some 50) (some 50) = 33 := by
    norm_num [compositeClaimed, jsRound]
  exact ⟨h1, h2, by rw [h1, h2]; decide⟩

/-- C1 amended: the synthesized compositeScore equals
round((f.score def 50) * 0.35 + (t.score def 50) * 0.25 + (r.score def 50) * 0.20 + 50 * 0.20)
where the default 50 is substituted when the corresponding score field is null,
absent, or equal to 0 (JS falsiness); in particular f.score = 80, t.score = 60,
r.score = 40 yields composite 61. -/
theorem composite_amended_formula :
    (∀ (tk : String) (rk : ℕ) (f : Fundamental) (t : Technical) (r : Risk),
      (synthesize tk { fundamental := some f, technical := some t, risk := some r } rk).score
        = compositeAmended f.score t.score r.score) ∧
    (synthesize "X" { fundamental := some { score := some 80 },
                      technical := some { score := some 60 },
                      risk := some { score := some 40 } } 1).score = 61 := by
  constructor
  · intro tk rk f t r
    show compositeOf f t r = compositeAmended f.score t.score r.score
    unfold compositeOf compositeAmended
    rw [truthyD50_eq_amended, truthyD50_eq_amended, truthyD50_eq_amended]
  · show compositeOf { score := some 80 } { score := some 60 } { score := some 40 } = 61
    norm_num [compositeOf, truthyD, jsRound]

/-- C2: the signal bands are total and non-overlapping, evaluated in order:
composite at least 75 gives strong_buy, else at least 60 gives buy, else at
most 25 gives strong_sell, else at most 40 gives sell, else hold; with the
eight boundary examples of the claim. -/
theorem signal_band_characterization :
    (∀ c : ℤ,
      (signalOf c = "strong_buy" ∨ signalOf c = "buy" ∨ signalOf c = "hold" ∨
        signalOf c = "sell" ∨ signalOf c = "strong_sell") ∧
      (signalOf c = "strong_buy" ↔ 75 ≤ c) ∧
      (signalOf c = "buy" ↔ 60 ≤ c ∧ c ≤ 74) ∧
      (signalOf c = "strong_sell" ↔ c ≤ 25) ∧
      (signalOf c = "sell" ↔ 26 ≤ c ∧ c ≤ 40) ∧
      (signalOf c = "hold" ↔ 41 ≤ c ∧ c ≤ 59)) ∧
    signalOf 75 = "strong_buy" ∧ signalOf 74 = "buy" ∧ signalOf 60 = "buy" ∧
    signalOf 59 = "hold" ∧ signalOf 41 = "hold" ∧ signalOf 40 = "sell" ∧
    signalOf 26 = "sell" ∧ signalOf 25 = "strong_sell" := by
  refine ⟨fun c => ?_, by decide, by decide, by decide, by decide,
    by decide, by decide, by decide, by decide⟩
  unfold signalOf
  split_ifs with h1 h2 h3 h4 <;>
    refine ⟨by decide, ?_, ?_, ?_, ?_, ?_⟩ <;>
    first
      | exact iff_of_true rfl (by omega)
      | exact iff_of_false (by decide) (by omega)

lemma truthyD50_bounds (x : Option ℚ) (h : ∀ v, x = some v → 0 ≤ v ∧ v ≤ 100) :
    0 ≤ truthyD x 50 ∧ truthyD x 50 ≤ 100 := by
  cases x with
  | none => norm_num [truthyD]
  | some v =>
      have hv := h v rfl
      simp only [truthyD]
      by_cases h0 : v = 0
      · norm_num [h0]
      · simpa [h0] using hv

/-- C4: if every supplied score field lies in the interval from 0 to 100 (or is
absent), the composite score is an integer in that interval; in fact the code
needs no clamping because the weighted sum already lies in the interval from 10
to 90. -/
theorem composite_score_in_range :
    ∀ (f : Fundamental) (t : Technical) (r : Risk),
      (∀ v, f.score = some v → 0 ≤ v ∧ v ≤ 100) →
      (∀ v, t.score = some v → 0 ≤ v ∧ v ≤ 100) →
      (∀ v, r.score = some v → 0 ≤ v ∧ v ≤ 100) →
      0 ≤ compositeOf f t r ∧ compositeOf f t r ≤ 100 := by
  intro f t r hf ht hr
  obtain ⟨ha0, ha1⟩ := truthyD50_bounds f.score hf
  obtain ⟨hb0, hb1⟩ := truthyD50_bounds t.score ht
  obtain ⟨hc0, hc1⟩ := truthyD50_bounds r.score hr
  unfold compositeOf jsRound
  constructor
  · apply Int.le_floor.mpr
    push_cast
    linarith
  · have h91 : (truthyD f.score 50 * (35/100) + truthyD t.score 50 * (25/100) +
        truthyD r.score 50 * (20/100) + 50 * (20/100)) + 1/2 ≤ (91 : ℚ) := by
      linarith
    have h2 := Int.floor_mono h91
    have h3 : (⌊(91 : ℚ)⌋ : ℤ) = 91 := by norm_num
    omega

/-- C4 witness: a concrete in-range bundle. -/
theorem composite_score_in_range_witness :
    0 ≤ compositeOf { score := some 80 } { score := some 0 } { score := none } ∧
    compositeOf { score := some 80 } { score := some 0 } { score := none } ≤ 100 :=
  composite_score_in_range _ _ _
    (fun v hv => by cases Option.some.inj hv; norm_num)
    (fun v hv => by cases Option.some.inj hv; norm_num)
    (fun v hv => by cases hv)

end WsbAnalyst

namespace WsbAnalyst

/-- C7 counterexample: at revenueGrowthYoy exactly 0 the claim predicts the
direction label growing (declining only when strictly negative), but the code
uses (v > 0 ? growing : declining) and emits declining. -/
theorem revenue_direction_zero_counterexample :
    (synthesize "X" { fundamental := some { revenue_growth_yoy := some 0 } } 1).investment_thesis
      = "X: revenue declining 0.0% YoY." ∧
    (synthesize "X" { fundamental := some { revenue_growth_yoy := some 0 } } 1).investment_thesis
      ≠ "X: revenue growing 0.0% YoY." := by
  have h0 : jsToFixed 1 (0 : ℚ) = "0.0" := by
    norm_num [jsToFixed]
    decide
  have h : (synthesize "X" { fundamental := some { revenue_growth_yoy := some 0 } } 1).investment_thesis
      = "X: revenue declining 0.0% YoY." := by
    show thesisOf "X" { revenue_growth_yoy := some 0 } {} {} = _
    norm_num [thesisOf, thesisParts, h0]
    decide
  exact ⟨h, by rw [h]; decide⟩

/-- C7 amended: for every non-null revenueGrowthYoy value v the thesis clause
list contains the revenue-growth clause, whose direction label is declining
exactly when v is not strictly positive (so value 0 is labelled declining, not
growing), with the absolute percentage formatted to 1 decimal. -/
theorem revenue_direction_amended :
    ∀ (f : Fundamental) (t : Technical) (r : Risk) (v : ℚ),
      f.revenue_growth_yoy = some v →
      ("revenue " ++ (if v ≤ 0 then "declining" else "growing") ++ " " ++
        jsToFixed 1 (abs (v * 100)) ++ "% YoY") ∈ thesisParts f t r := by
  intro f t r v h
  have hdir : (if v ≤ 0 then "declining" else "growing")
      = (if v > 0 then "growing" else "declining") := by
    rcases le_or_lt v 0 with h0 | h0
    · rw [if_pos h0, if_neg (not_lt.mpr h0)]
    · rw [if_neg (not_le.mpr h0), if_pos h0]
  rw [hdir]
  unfold thesisParts
  rw [h]
  simp [List.mem_append]

/-- C7 amended witness: a concrete strictly negative growth value. -/
theorem revenue_direction_amended_witness :
    ("revenue " ++ (if (-(1/20) : ℚ) ≤ 0 then "declining" else "growing") ++ " " ++
      jsToFixed 1 (abs ((-(1/20) : ℚ) * 100)) ++ "% YoY") ∈
      thesisParts { revenue_growth_yoy := some (-(1/20)) } {} {} :=
  revenue_direction_amended _ _ _ _ rfl

/-- C9: the synthesis treats a value of exactly 0 the same as an absent value
for f.score, t.score, r.score and f.trailing_pe: replacing some 0 by none in
any one of those fields leaves the synthesized Recommendation (composite,
signal, thesis, bull and bear case, risk flags, rank) unchanged. -/
theorem zero_and_null_agree :
    ∀ (tk : String) (rk : ℕ) (f : Fundamental) (t : Technical) (r : Risk),
      synthesize tk ⟨some { f with score := some 0 }, some t, some r⟩ rk
        = synthesize tk ⟨some { f with score := none }, some t, some r⟩ rk ∧
      synthesize tk ⟨some f, some { t with score := some 0 }, some r⟩ rk
        = synthesize tk ⟨some f, some { t with score := none }, some r⟩ rk ∧
      synthesize tk ⟨some f, some t, some { r with score := some 0 }⟩ rk
        = synthesize tk ⟨some f, some t, some { r with score := none }⟩ rk ∧
      synthesize tk ⟨some { f with trailing_pe := some 0 }, some t, some r⟩ rk
        = synthesize tk ⟨some { f with trailing_pe := none }, some t, some r⟩ rk := by
  intro tk rk f t r
  refine ⟨?_, ?_, ?_, ?_⟩ <;>
    simp [synthesize, compositeOf, truthyD, thesisOf, thesisParts, riskFlagsOf, bullOf, bearOf, jsOr]

end WsbAnalyst

namespace WsbAnalyst

/-
  Ticker extraction, src/api/trending.js lines 9 to 53 (src/src/api.js lines
  22 to 66 is an identical copy).

  The two regexes are TICKER_RE = /\$([A-Z]\x7b1,5\x7d)\b/g and
  BARE_TICKER_RE = /\b([A-Z]\x7b2,5\x7d)\b/g, with ASCII \w and \b semantics.
  A \b holds exactly at the two ends of a maximal run of word characters
  ([A-Za-z0-9_]).  Because [A-Z] matches only word characters and the greedy
  quantifier backtracks only to positions inside the run, where no \b holds,
  a capture of TICKER_RE is exactly a maximal word-character run that is
  preceded by a dollar sign, is 1 to 5 characters long, and consists only of
  uppercase letters; a capture of BARE_TICKER_RE is exactly a maximal
  word-character run of 2 to 5 uppercase letters (a longer run, or a run
  containing a lowercase letter, digit or underscore, yields no capture at
  all, because every backtracked end position falls inside the run).
  The model below therefore enumerates maximal word runs together with the
  character immediately preceding each run.
-/

/-- ASCII word character of the JS regex class backslash-w. -/
def isWordChar (c : Char) : Bool :=
  ('A' ≤ c && c ≤ 'Z') || ('a' ≤ c && c ≤ 'z') || ('0' ≤ c && c ≤ '9') || c == '_'

/-- Uppercase ASCII letter, the character class of both capture groups. -/
def isUpperAZ (c : Char) : Bool := 'A' ≤ c && c ≤ 'Z'

/-- Right-to-left accumulation of maximal word-character runs.  The Bool of the
pair records whether the first run of the processed suffix starts at the head
of that suffix (so that its preceding character is still unknown); in that
state the run is provisionally stored with preceding character none, and the
correct preceding character is filled in when the recursion reaches it. -/
def wordRunsGo : List Char → Bool × List (Option Char × List Char)
  | [] => (false, [])
  | c :: cs =>
    let res := wordRunsGo cs
    if isWordChar c then
      match res with
      | (true, (_, run) :: rest) => (true, (none, c :: run) :: rest)
      | (_, runs) => (true, (none, [c]) :: runs)
    else
      match res with
      | (true, (_, run) :: rest) => (false, (some c, run) :: rest)
      | (_, runs) => (false, runs)

/-- Maximal runs of word characters, each with the character immediately before
the run (none when the run starts the text). -/
def wordRuns (l : List Char) : List (Option Char × List Char) := (wordRunsGo l).2

/-- Captures of TICKER_RE: maximal word runs preceded by a dollar sign, of
length 1 to 5, all uppercase. -/
def cashtagCaptures (l : List Char) : List (List Char) :=
  (wordRuns l).filterMap fun pr =>
    if pr.1 = some '$' ∧ 1 ≤ pr.2.length ∧ pr.2.length ≤ 5 ∧ pr.2.all isUpperAZ then
      some pr.2
    else none

/-- Captures of BARE_TICKER_RE: maximal word runs of length 2 to 5, all
uppercase. -/
def bareCaptures (l : List Char) : List (List Char) :=
  (wordRuns l).filterMap fun pr =>
    if 2 ≤ pr.2.length ∧ pr.2.length ≤ 5 ∧ pr.2.all isUpperAZ then
      some pr.2
    else none

/-- Lexicon of common words that look like tickers, src/api/trending.js lines
9 to 39, transcribed verbatim including the duplicated entries. -/
def FALSE_POSITIVES : List String :=
  ["I", "A", "AM", "AN", "AT", "BE", "BY", "DO", "GO", "IF", "IN", "IS",
   "IT", "ME", "MY", "NO", "OF", "OK", "ON", "OR", "SO", "TO", "UP", "US",
   "WE", "CEO", "CFO", "CTO", "COO", "IPO", "ETF", "SEC", "FDA", "FED",
   "GDP", "ATH", "DD", "DFV", "EPS", "EOD", "ERR", "EST", "FOR", "FYI",
   "GG", "HQ", "IMO", "LOL", "NYC", "OTC", "PDT", "PE", "PM", "PT", "RH",
   "SP", "TD", "UK", "USA", "WSB", "YOLO", "FOMO", "HODL", "MOON", "APE",
   "APR", "MAY", "JUN", "JUL", "AUG", "SEP", "OCT", "NOV", "DEC", "JAN",
   "FEB", "MAR", "MON", "TUE", "WED", "THU", "FRI", "SAT", "SUN", "THE",
   "AND", "BUT", "NOT", "ALL", "ANY", "ARE", "CAN", "DAY", "DID", "GET",
   "GOT", "HAS", "HAD", "HER", "HIM", "HIS", "HOW", "ITS", "LET", "MAD",
   "MAN", "MEN", "NEW", "NOW", "OLD", "ONE", "OUR", "OUT", "OWN", "PUT",
   "RAN", "RED", "RUN", "SAW", "SAY", "SHE", "THE", "TOO", "TOP", "TRY",
   "TWO", "WAR", "WAS", "WAY", "WHO", "WHY", "WIN", "WON", "YET", "YOU",
   "BIG", "LOW", "HIGH", "CALL", "PUTS", "LONG", "SHORT", "BULL", "BEAR",
   "HOLD", "SELL", "BUY", "GAIN", "LOSS", "PUMP", "DUMP", "CASH", "DEBT",
   "RISK", "SAFE", "EDIT", "TLDR", "OP", "LMAO", "ROPE", "RIP", "BANG",
   "OG", "AI", "EV", "GOOD", "BAD", "BEST", "LIKE", "JUST", "EVEN",
   "OVER", "MOST", "MUCH", "NEXT", "ONLY", "VERY", "WELL", "ALSO", "BACK",
   "BEEN", "COME", "DOWN", "EACH", "FIND", "GIVE", "HAVE", "HERE", "KEEP",
   "LAST", "LOOK", "MADE", "MAKE", "MANY", "MORE", "MOVE", "MUST", "NAME",
   "NEED", "OPEN", "PART", "PLAY", "REAL", "SAID", "SAME", "SOME", "SURE",
   "TAKE", "TELL", "THAN", "THAT", "THEM", "THEN", "THEY", "THIS", "TIME",
   "TURN", "WANT", "WEEK", "WENT", "WERE", "WHAT", "WHEN", "WILL", "WITH",
   "WORK", "YEAR", "YOUR", "FREE", "HUGE", "HARD", "ZERO", "LMFAO",
   "COST", "FROM", "DOES", "DONE", "FULL", "HALF", "HELP", "HOME", "INTO",
   "LEFT", "LESS", "LIFE", "LINE", "LIST", "LIVE", "LONG", "LOST", "MARK",
   "MISS", "OWE", "PAYS", "POST", "REST", "RICH", "RISE", "SAVE", "SIDE",
   "SIZE", "STOP", "TALK", "TERM", "THEM", "TILL", "TRUE", "TYPE", "USED",
   "WAIT", "WAKE", "WALL", "WISH", "WORD", "YALL", "HOLY", "SHIT"]

/-- Set-insertion step of extractTickers: add the capture unless it is in the
lexicon or already present (JS Set keeps first-insertion order). -/
def addCapture (acc : List String) (w : List Char) : List String :=
  if FALSE_POSITIVES.contains (String.mk w) || acc.contains (String.mk w) then acc
  else acc ++ [String.mk w]

/-- extractTickers, src/api/trending.js lines 44 to 53: cashtag captures are
processed first, then bare captures, each filtered against the lexicon and
deduplicated through a Set; the result is the Set spread into an array in
insertion order. -/
def extractTickers (text : String) : List String :=
  (cashtagCaptures text.toList ++ bareCaptures text.toList).foldl addCapture []

end WsbAnalyst

namespace WsbAnalyst

lemma toList_mk (l : List Char) : (String.mk l).toList = l := rfl

lemma mem_addCapture_of_mem (acc : List String) (w : List Char) (a : String)
    (h : a ∈ acc) : a ∈ addCapture acc w := by
  unfold addCapture
  split
  · exact h
  · exact List.mem_append_left _ h

lemma addCapture_fold_mem_acc (ws : List (List Char)) :
    ∀ (acc : List String) (a : String), a ∈ acc → a ∈ ws.foldl addCapture acc := by
  induction ws with
  | nil => intro acc a h; exact h
  | cons w0 rest ih =>
      intro acc a h
      exact ih (addCapture acc w0) a (mem_addCapture_of_mem acc w0 a h)

lemma mem_addCapture_self (acc : List String) (w : List Char)
    (hlex : FALSE_POSITIVES.contains (String.mk w) = false) :
    String.mk w ∈ addCapture acc w := by
  unfold addCapture
  rw [hlex, Bool.false_or]
  by_cases hc : acc.contains (String.mk w) = true
  · rw [hc]
    simp only [if_true]
    exact List.mem_of_elem_eq_true hc
  · rw [Bool.eq_false_iff.mpr hc]
    simp

lemma addCapture_fold_mem_input (ws : List (List Char)) (w : List Char)
    (hlex : FALSE_POSITIVES.contains (String.mk w) = false) :
    ∀ (acc : List String), w ∈ ws → String.mk w ∈ ws.foldl addCapture acc := by
  induction ws with
  | nil => intro acc hw; cases hw
  | cons w0 rest ih =>
      intro acc hw
      rcases List.mem_cons.mp hw with heq | hmem
      · subst heq
        exact addCapture_fold_mem_acc rest (addCapture acc w) (String.mk w)
          (mem_addCapture_self acc w hlex)
      · exact ih (addCapture acc w0) hmem

lemma addCapture_fold_wf (ws : List (List Char))
    (hws : ∀ w ∈ ws, 1 ≤ w.length ∧ w.length ≤ 5 ∧ w.all isUpperAZ = true) :
    ∀ (acc : List String),
      (∀ a ∈ acc,
        (1 ≤ a.toList.length ∧ a.toList.length ≤ 5 ∧ a.toList.all isUpperAZ = true) ∧
        FALSE_POSITIVES.contains a = false) →
      ∀ s ∈ ws.foldl addCapture acc,
        (1 ≤ s.toList.length ∧ s.toList.length ≤ 5 ∧ s.toList.all isUpperAZ = true) ∧
        FALSE_POSITIVES.contains s = false := by
  induction ws with
  | nil => intro acc hacc; exact hacc
  | cons w0 rest ih =>
      intro acc hacc s hs
      refine ih (fun w hw => hws w (List.mem_cons_of_mem _ hw)) (addCapture acc w0) ?_ s hs
      intro a ha
      unfold addCapture at ha
      split at ha
      · exact hacc a ha
      · rcases List.mem_append.mp ha with h | h
        · exact hacc a h
        · have haeq : a = String.mk w0 := List.mem_singleton.mp h
          subst haeq
          rename_i hcond
          have hcond2 := Bool.or_eq_false_iff.mp (Bool.eq_false_iff.mpr hcond)
          refine ⟨?_, hcond2.1⟩
          rw [toList_mk]
          exact hws w0 (List.mem_cons_self _ _)

lemma mem_cashtagCaptures_wf {l w : List Char} (h : w ∈ cashtagCaptures l) :
    1 ≤ w.length ∧ w.length ≤ 5 ∧ w.all isUpperAZ = true := by
  simp only [cashtagCaptures, List.mem_filterMap] at h
  obtain ⟨pr, _, hpr⟩ := h
  split_ifs at hpr with hc
  cases hpr
  exact ⟨hc.2.1, hc.2.2.1, hc.2.2.2⟩

lemma mem_bareCaptures_wf {l w : List Char} (h : w ∈ bareCaptures l) :
    1 ≤ w.length ∧ w.length ≤ 5 ∧ w.all isUpperAZ = true := by
  simp only [bareCaptures, List.mem_filterMap] at h
  obtain ⟨pr, _, hpr⟩ := h
  split_ifs at hpr with hc
  cases hpr
  exact ⟨by omega, hc.2.1, hc.2.2⟩

/-- C8: every string returned by extractTickers is 1 to 5 uppercase ASCII
letters (the shape of the regex /^[A-Z]{1,5}$/) and is absent from the
Lexicon. -/
theorem extracted_tickers_wellformed :
    ∀ (text : String) (s : String), s ∈ extractTickers text →
      (1 ≤ s.toList.length ∧ s.toList.length ≤ 5 ∧ s.toList.all isUpperAZ = true) ∧
      FALSE_POSITIVES.contains s = false := by
  intro text s hs
  refine addCapture_fold_wf _ ?_ [] (by simp) s hs
  intro w hw
  rcases List.mem_append.mp hw with h | h
  · exact mem_cashtagCaptures_wf h
  · exact mem_bareCaptures_wf h

/-- C8 witness: the single ticker extracted from a concrete document. -/
theorem extracted_tickers_wellformed_witness :
    (1 ≤ "GME".toList.length ∧ "GME".toList.length ≤ 5 ∧
      "GME".toList.all isUpperAZ = true) ∧
    FALSE_POSITIVES.contains "GME" = false :=
  extracted_tickers_wellformed "$GME to the MOON" "GME" (by decide)

/-- C5 counterexample: DD is a capture of the cashtag pattern in the text
dollar-DD, but it is in the Lexicon, so extractTickers suppresses it; the
claim says every cashtag capture is kept regardless of the Lexicon. -/
theorem cashtag_always_kept_counterexample :
    ['D', 'D'] ∈ cashtagCaptures ("$DD".toList) ∧
    extractTickers "$DD" = [] ∧
    "DD" ∉ extractTickers "$DD" := by
  refine ⟨by decide, by decide, by decide⟩

/-- C5 amended: every capture of the cashtag pattern that is NOT in the
Lexicon appears in the output of extractTickers; captures that are in the
Lexicon are suppressed exactly like bare-form matches. -/
theorem cashtag_kept_unless_lexicon :
    ∀ (text : String) (w : List Char), w ∈ cashtagCaptures text.toList →
      FALSE_POSITIVES.contains (String.mk w) = false →
      String.mk w ∈ extractTickers text := by
  intro text w hw hlex
  unfold extractTickers
  exact addCapture_fold_mem_input _ w hlex [] (List.mem_append_left _ hw)

/-- C5 amended witness: a concrete cashtag capture outside the Lexicon. -/
theorem cashtag_kept_unless_lexicon_witness :
    String.mk ['G', 'M', 'E'] ∈ extractTickers "$GME" :=
  cashtag_kept_unless_lexicon "$GME" ['G', 'M', 'E'] (by decide) (by decide)

end WsbAnalyst

namespace WsbAnalyst

/-- Reddit post fields read by the trending aggregation, src/api/trending.js
lines 73 to 87.  Every field the code reads defensively is optional. -/
structure Post where
  title : Option String := none
  selftext : Option String := none
  score : Option ℤ := none
  num_comments : Option ℤ := none
  stickied : Bool := false
  deriving DecidableEq, Repr

/-- Per-ticker mention counters, src/api/trending.js line 82. -/
structure MentionRec where
  ticker : String
  mention_count : ℤ
  total_score : ℤ
  total_comments : ℤ
  deriving DecidableEq, Repr

/-- Mention record extended with the weighted score, lines 90 to 94. -/
structure WeightedMention where
  ticker : String
  mention_count : ℤ
  total_score : ℤ
  total_comments : ℤ
  weighted_score : ℚ
  deriving DecidableEq, Repr

/-- Upsert into the mentions object (JS object keys keep insertion order): a
new ticker is appended with counters starting at zero and then incremented, an
existing one is updated in place. -/
def updateMention (ms : List MentionRec) (tk : String) (sc cm : ℤ) : List MentionRec :=
  if ms.any (fun m => m.ticker == tk) then
    ms.map fun m =>
      if m.ticker == tk then
        { m with mention_count := m.mention_count + 1,
                 total_score := m.total_score + sc,
                 total_comments := m.total_comments + cm }
      else m
  else ms ++ [⟨tk, 1, sc, cm⟩]

/-- One iteration of the post loop, lines 73 to 88: a missing post object or a
stickied post is skipped; otherwise every ticker extracted from title-space-
selftext updates the mentions object with the post score and comment count. -/
def aggregatePost (ms : List MentionRec) (p : Option Post) : List MentionRec :=
  match p with
  | none => ms
  | some post =>
      if post.stickied then ms
      else
        (extractTickers (post.title.getD "" ++ " " ++ post.selftext.getD "")).foldl
          (fun acc tk => updateMention acc tk (post.score.getD 0) (post.num_comments.getD 0)) ms

/-- Weighted score map, lines 91 to 94:
weighted_score = mention_count * 3 + total_score * 0.01 + total_comments * 0.05. -/
def weightedOf (m : MentionRec) : WeightedMention :=
  ⟨m.ticker, m.mention_count, m.total_score, m.total_comments,
   (m.mention_count : ℚ) * 3 + (m.total_score : ℚ) * (1/100) + (m.total_comments : ℚ) * (5/100)⟩

/-- Ranked ticker list of the trending endpoint, lines 70 to 96: aggregate all
posts, add weighted scores, sort descending by weighted score (the JS stable
sort with comparator b.weighted_score - a.weighted_score), keep the first 20. -/
def rankedTickers (children : List (Option Post)) : List WeightedMention :=
  (((children.foldl aggregatePost []).map weightedOf).mergeSort
    (fun a b => decide (b.weighted_score ≤ a.weighted_score))).take 20

/-- Outcome of the fetch phase of the handler: a successful response carrying
data.data.children (null-coalesced to the empty list by the code), a non-ok
HTTP response, or an exception thrown anywhere in the try block. -/
inductive FetchOutcome where
  | success (body : Option (List (Option Post)))
  | httpError (status : ℤ)
  | thrown (msg : String)
  deriving DecidableEq, Repr

/-- Response of the trending endpoint: HTTP status plus the JSON body fields. -/
structure HandlerResponse where
  status : ℤ
  tickers : List WeightedMention
  error : Option String
  deriving DecidableEq, Repr

/-- The trending endpoint handler, src/api/trending.js lines 55 to 108.  All
three return sites use status 200; the catch clause turns any thrown error
into a 200 response with an empty ticker list and the error message.  The
processing after a successful fetch is total (every field access in it is
null-coalesced), so exceptions can arise only from the fetch and body-parsing
phase, which the FetchOutcome argument models. -/
def handler : FetchOutcome → HandlerResponse
  | .httpError st => ⟨200, [], some ("Reddit returned " ++ toString st)⟩
  | .thrown msg => ⟨200, [], some msg⟩
  | .success body => ⟨200, rankedTickers (body.getD []), none⟩

/-- C6: every entry of the ranked ticker list satisfies
weighted_score = mention_count * 3 + total_score * 0.01 + total_comments * 0.05,
and the example mention_count 3, total_score 300, total_comments 50 yields
weighted_score 14.5. -/
theorem weighted_score_formula :
    (∀ (children : List (Option Post)) (m : WeightedMention), m ∈ rankedTickers children →
      m.weighted_score = (m.mention_count : ℚ) * 3 + (m.total_score : ℚ) * (1/100) +
        (m.total_comments : ℚ) * (5/100)) ∧
    (weightedOf ⟨"GME", 3, 300, 50⟩).weighted_score = 29/2 := by
  constructor
  · intro children m hm
    unfold rankedTickers at hm
    have hm2 := List.mem_of_mem_take hm
    have hm3 := (List.mergeSort_perm _ _).mem_iff.mp hm2
    obtain ⟨mr, _, rfl⟩ := List.mem_map.mp hm3
    rfl
  · norm_num [weightedOf]

/-- C6 witness: a one-post feed mentioning one cashtag. -/
theorem weighted_score_formula_witness :
    (weightedOf ⟨"AB", 1, 100, 10⟩).weighted_score =
      ((weightedOf ⟨"AB", 1, 100, 10⟩).mention_count : ℚ) * 3 +
      ((weightedOf ⟨"AB", 1, 100, 10⟩).total_score : ℚ) * (1/100) +
      ((weightedOf ⟨"AB", 1, 100, 10⟩).total_comments : ℚ) * (5/100) := by
  have h0 : List.foldl aggregatePost []
      [some ⟨some "$AB", none, some 100, some 10, false⟩] = [⟨"AB", 1, 100, 10⟩] := by
    decide
  have hmem : weightedOf ⟨"AB", 1, 100, 10⟩ ∈
      rankedTickers [some ⟨some "$AB", none, some 100, some 10, false⟩] := by
    unfold rankedTickers
    rw [h0]
    simp
  exact weighted_score_formula.1 _ _ hmem

/-- C10: the trending handler always responds with HTTP status 200; on an
upstream non-success response or a thrown exception the body carries an empty
ticker list and the error message. -/
theorem handler_always_200 :
    ∀ o : FetchOutcome,
      (handler o).status = 200 ∧
      (∀ st, o = .httpError st →
        (handler o).tickers = [] ∧
        (handler o).error = some ("Reddit returned " ++ toString st)) ∧
      (∀ msg, o = .thrown msg →
        (handler o).tickers = [] ∧ (handler o).error = some msg) := by
  intro o
  refine ⟨?_, ?_, ?_⟩
  · cases o <;> rfl
  · intro st h
    subst h
    exact ⟨rfl, rfl⟩
  · intro msg h
    subst h
    exact ⟨rfl, rfl⟩

/-- C10 witness: a concrete rate-limited upstream response. -/
theorem handler_always_200_witness :
    (handler (.httpError 429)).status = 200 ∧
    (handler (.httpError 429)).tickers = [] ∧
    (handler (.httpError 429)).error = some ("Reddit returned " ++ toString (429 : ℤ)) := by
  have h := handler_always_200 (.httpError 429)
  exact ⟨h.1, (h.2.1 429 rfl).1, (h.2.1 429 rfl).2⟩

end WsbAnalyst

namespace WsbAnalyst

/-- Insert-or-replace into the stocks object (the setStocks spread with a
computed key, src/src/App.jsx line 105): an existing key keeps its position,
a new key is appended (JS object key insertion order). -/
def upsertStock (m : List (String × Recommendation)) (k : String) (v : Recommendation) :
    List (String × Recommendation) :=
  if m.any (fun p => p.1 == k) then m.map (fun p => if p.1 == k then (k, v) else p)
  else m ++ [(k, v)]

/-- The per-ticker loop of runAnalysis, src/src/App.jsx lines 32 to 109: the
provider argument models await fetchStockDetail together with anything else in
the try block that can throw; an error result is caught (console.warn) and the
loop continues with the next ticker, while a success synthesizes the
recommendation with rank i + 1 and stores it under the ticker key. -/
def analysisLoop (provider : String → Except String StockDetail) :
    List String → ℕ → List (String × Recommendation) → List (String × Recommendation)
  | [], _, stocks => stocks
  | tk :: rest, i, stocks =>
      match provider tk with
      | .error _ => analysisLoop provider rest (i + 1) stocks
      | .ok detail =>
          analysisLoop provider rest (i + 1) (upsertStock stocks tk (synthesize tk detail (i + 1)))

/-- The final Recommendation collection of runAnalysis: loop over the trending
tickers (the caller passes the first 8) starting from an empty stocks object,
then Object.values sorted by score descending, src/src/App.jsx line 119. -/
def runAnalysis (provider : String → Except String StockDetail) (tickers : List String) :
    List Recommendation :=
  ((analysisLoop provider tickers 0 []).map Prod.snd).mergeSort
    (fun a b => decide (b.score ≤ a.score))

lemma synthesize_ticker (tk : String) (d : StockDetail) (rk : ℕ) :
    (synthesize tk d rk).ticker = tk := rfl

lemma mem_keys_upsert (stocks : List (String × Recommendation)) (k : String)
    (v : Recommendation) (a : String) :
    a ∈ (upsertStock stocks k v).map Prod.fst ↔ a ∈ stocks.map Prod.fst ∨ a = k := by
  unfold upsertStock
  split
  · rename_i hany
    have hkeys : (stocks.map (fun p => if p.1 == k then (k, v) else p)).map Prod.fst
        = stocks.map Prod.fst := by
      rw [List.map_map]
      apply List.map_congr_left
      intro p _
      by_cases hp : (p.1 == k) = true
      · simp only [Function.comp_apply, hp, if_true]
        exact (beq_iff_eq.mp hp).symm
      · have hne : ¬ p.1 = k := fun h => hp (beq_iff_eq.mpr h)
        simp [Function.comp_apply, hp, hne]
    rw [hkeys]
    constructor
    · exact Or.inl
    · rintro (h | rfl)
      · exact h
      · obtain ⟨p, hp, hpk⟩ := List.any_eq_true.mp hany
        exact List.mem_map.mpr ⟨p, hp, beq_iff_eq.mp hpk⟩
  · rw [List.map_append]
    simp [List.mem_append]

lemma upsert_ticker_invariant (stocks : List (String × Recommendation)) (k : String)
    (v : Recommendation) (hv : v.ticker = k)
    (h : ∀ p ∈ stocks, (Prod.snd p).ticker = p.1) :
    ∀ p ∈ upsertStock stocks k v, (Prod.snd p).ticker = p.1 := by
  intro p hp
  unfold upsertStock at hp
  split at hp
  · obtain ⟨q, hq, rfl⟩ := List.mem_map.mp hp
    by_cases hqk : (q.1 == k) = true
    · simp only [hqk, if_true]
      exact hv
    · simp only [hqk, if_false]
      exact h q hq
  · rcases List.mem_append.mp hp with h1 | h1
    · exact h p h1
    · rw [List.mem_singleton.mp h1]
      exact hv

lemma analysisLoop_ticker_invariant (provider : String → Except String StockDetail)
    (ts : List String) :
    ∀ (i : ℕ) (stocks : List (String × Recommendation)),
      (∀ p ∈ stocks, (Prod.snd p).ticker = p.1) →
      ∀ p ∈ analysisLoop provider ts i stocks, (Prod.snd p).ticker = p.1 := by
  induction ts with
  | nil => intro i stocks h; exact h
  | cons tk rest ih =>
      intro i stocks h
      show ∀ p ∈ analysisLoop provider (tk :: rest) i stocks, (Prod.snd p).ticker = p.1
      unfold analysisLoop
      cases hp : provider tk with
      | error e => exact ih (i + 1) stocks h
      | ok d =>
          exact ih (i + 1) _
            (upsert_ticker_invariant stocks tk _ (synthesize_ticker tk d (i + 1)) h)

lemma analysisLoop_key_absent (provider : String → Except String StockDetail)
    (tk : String) (e : String) (he : provider tk = .error e) (ts : List String) :
    ∀ (i : ℕ) (stocks : List (String × Recommendation)),
      tk ∉ stocks.map Prod.fst →
      tk ∉ (analysisLoop provider ts i stocks).map Prod.fst := by
  induction ts with
  | nil => intro i stocks h; exact h
  | cons tk0 rest ih =>
      intro i stocks h
      show tk ∉ (analysisLoop provider (tk0 :: rest) i stocks).map Prod.fst
      unfold analysisLoop
      cases hp : provider tk0 with
      | error e0 => exact ih (i + 1) stocks h
      | ok d =>
          refine ih (i + 1) _ ?_
          intro hmem
          rcases (mem_keys_upsert stocks tk0 _ tk).mp hmem with h1 | h1
          · exact h h1
          · subst h1
            rw [he] at hp
            cases hp
  
lemma analysisLoop_key_monotone (provider : String → Except String StockDetail)
    (tk : String) (ts : List String) :
    ∀ (i : ℕ) (stocks : List (String × Recommendation)),
      tk ∈ stocks.map Prod.fst →
      tk ∈ (analysisLoop provider ts i stocks).map Prod.fst := by
  induction ts with
  | nil => intro i stocks h; exact h
  | cons tk0 rest ih =>
      intro i stocks h
      show tk ∈ (analysisLoop provider (tk0 :: rest) i stocks).map Prod.fst
      unfold analysisLoop
      cases hp : provider tk0 with
      | error e0 => exact ih (i + 1) stocks h
      | ok d => exact ih (i + 1) _ ((mem_keys_upsert stocks tk0 _ tk).mpr (Or.inl h))

lemma analysisLoop_key_present (provider : String → Except String StockDetail)
    (tk : String) (d : StockDetail) (hd : provider tk = .ok d) (ts : List String) :
    ∀ (i : ℕ) (stocks : List (String × Recommendation)),
      tk ∈ ts →
      tk ∈ (analysisLoop provider ts i stocks).map Prod.fst := by
  induction ts with
  | nil => intro i stocks h; cases h
  | cons tk0 rest ih =>
      intro i stocks h
      show tk ∈ (analysisLoop provider (tk0 :: rest) i stocks).map Prod.fst
      unfold analysisLoop
      rcases List.mem_cons.mp h with heq | hmem
      · subst heq
        rw [hd]
        exact analysisLoop_key_monotone provider tk rest (i + 1) _
          ((mem_keys_upsert stocks tk _ tk).mpr (Or.inr rfl))
      · cases hp : provider tk0 with
        | error e0 => exact ih (i + 1) stocks hmem
        | ok d0 => exact ih (i + 1) _ hmem

/-- C3: a ticker whose provider call (or any step of its try block) fails does
not appear in the final Recommendation collection, and every ticker whose
provider call succeeds appears in it, independently of failures of any other
ticker: no per-ticker error aborts the remaining tickers. -/
theorem failed_ticker_skipped :
    ∀ (provider : String → Except String StockDetail) (tickers : List String) (tk : String),
      tk ∈ tickers →
      ((∃ e, provider tk = .error e) →
        ∀ rec ∈ runAnalysis provider tickers, rec.ticker ≠ tk) ∧
      (∀ d, provider tk = .ok d →
        ∃ rec ∈ runAnalysis provider tickers, rec.ticker = tk) := by
  intro provider tickers tk htk
  constructor
  · rintro ⟨e, he⟩ rec hrec heq
    have hrec2 := (List.mergeSort_perm _ _).mem_iff.mp hrec
    obtain ⟨p, hp, rfl⟩ := List.mem_map.mp hrec2
    have hkey : (Prod.snd p).ticker = p.1 :=
      analysisLoop_ticker_invariant provider tickers 0 [] (by simp) p hp
    have habs := analysisLoop_key_absent provider tk e he tickers 0 [] (by simp)
    exact habs (List.mem_map.mpr ⟨p, hp, by rw [← hkey, heq]⟩)
  · intro d hd
    have hpres := analysisLoop_key_present provider tk d hd tickers 0 [] htk
    obtain ⟨p, hp, hpk⟩ := List.mem_map.mp hpres
    refine ⟨Prod.snd p, ?_, ?_⟩
    · exact (List.mergeSort_perm _ _).mem_iff.mpr (List.mem_map.mpr ⟨p, hp, rfl⟩)
    · rw [analysisLoop_ticker_invariant provider tickers 0 [] (by simp) p hp]
      exact hpk

/-- C3 witness: the provider fails on the first ticker AA and succeeds on the
second ticker AB; AB still appears in the final collection. -/
theorem failed_ticker_skipped_witness :
    ∃ rec ∈ runAnalysis
      (fun s => if s = "AA" then Except.error "boom" else Except.ok {}) ["AA", "AB"],
      rec.ticker = "AB" :=
  (failed_ticker_skipped
      (fun s => if s = "AA" then Except.error "boom" else Except.ok {}) ["AA", "AB"] "AB"
      (by decide)).2 {} rfl

end WsbAnalyst
